import Mathlib

/-!
Verification of the ojster sealing/unsealing core and decryption request
handler.

The Go sources are shallowly embedded: byte strings become `List Nat`
(each byte < 256 where it matters), text becomes `List Char` or `String`,
Go maps become association lists, and the filesystem / random source are
threaded as explicit parameters.  The external cryptographic primitives
(Go's `crypto/mlkem` ML-KEM-768 and `crypto/aes` + `crypto/cipher`
AES-256-GCM, which are standard-library collaborators of this repository)
are abstracted as structures (`KEM`, `GCM`) whose contract fields mirror
the stdlib guarantees the code relies on; small concrete instances are
provided so every pipeline is executable.  Everything else — base64,
envelope building/parsing, key selection, the unseal state machine, the
request-handler filtering — is translated directly from the source.
-/

set_option maxHeartbeats 1000000

/-! ## Generic list/string helpers -/

/-- Association-list lookup: the model of Go `map[string]T` indexing with
`v, ok := m[k]`. -/
def lookupEnv {α : Type} : List (String × α) → String → Option α
  | [], _ => none
  | (k, v) :: rest, key => if k = key then some v else lookupEnv rest key

/-- Go `strings.HasPrefix s tag` on rune lists. -/
def startsWith : List Char → List Char → Bool
  | _, [] => true
  | a :: as, b :: bs => a = b && startsWith as bs
  | [], _ :: _ => false

/-- Go `strings.SplitN(s, ":", 2)`: `some (before, after)` splits at the
first `':'`; `none` models the 1-part result when no separator occurs. -/
def splitFirstColon : List Char → Option (List Char × List Char)
  | [] => none
  | c :: rest =>
    if c = ':' then some ([], rest)
    else (splitFirstColon rest).map (fun p => (c :: p.1, p.2))

/-- The ASCII whitespace recognized by our model of Go `strings.TrimSpace`
(the inputs this code trims only ever carry these). -/
def isSpaceChar (c : Char) : Bool :=
  [' ', '\t', '\n', '\r'].contains c

/-- Model of Go `strings.TrimSpace`. -/
def trimSpace (s : List Char) : List Char :=
  ((s.dropWhile isSpaceChar).reverse.dropWhile isSpaceChar).reverse

/-- Byte-wise (code-point) order on strings, as used by Go `sort.Strings`
for the ASCII key names handled here. -/
def leChars : List Char → List Char → Bool
  | a :: as, b :: bs => if a = b then leChars as bs else decide (a < b)
  | [], _ => true
  | _ :: _, [] => false

def leStr (a b : String) : Bool := leChars a.data b.data

/-- Insert into a `leStr`-sorted list. -/
def insertLe (x : String) : List String → List String
  | [] => [x]
  | y :: ys => if leStr x y then x :: y :: ys else y :: insertLe x ys

/-- Sorting model of Go `sort.Strings`. -/
def sortStrings (l : List String) : List String := l.foldr insertLe []

/-! ## Base64 (model of Go `encoding/base64` StdEncoding) -/

def b64Alphabet : List Char :=
  "ABCDEFGHIJKLMNOPQRSTUVWXYZabcdefghijklmnopqrstuvwxyz0123456789+/".data

def b64chr (n : Nat) : Char := b64Alphabet.getD n 'A'

def b64idxAux : List Char → Nat → Char → Option Nat
  | [], _, _ => none
  | a :: rest, i, c => if a = c then some i else b64idxAux rest (i + 1) c

def b64idx (c : Char) : Option Nat := b64idxAux b64Alphabet 0 c

/-- RFC 4648 standard base64 with padding: Go
`base64.StdEncoding.EncodeToString`. -/
def b64encode : List Nat → List Char
  | [] => []
  | [a] => [b64chr (a / 4), b64chr (a % 4 * 16), '=', '=']
  | [a, b] => [b64chr (a / 4), b64chr (a % 4 * 16 + b / 16), b64chr (b % 16 * 4), '=']
  | a :: b :: c :: rest =>
    b64chr (a / 4) :: b64chr (a % 4 * 16 + b / 16) ::
    b64chr (b % 16 * 4 + c / 64) :: b64chr (c % 64) :: b64encode rest

/-- Go `base64.StdEncoding.DecodeString` (on newline-free input): groups of
four, padding only in a final group, length must be a multiple of four.
Like Go's non-strict decoder it does not check the discarded low bits of a
padded group. -/
def b64decode : List Char → Option (List Nat)
  | [] => some []
  | c1 :: c2 :: c3 :: c4 :: rest =>
    match b64idx c1, b64idx c2 with
    | some s1, some s2 =>
      if c3 = '=' then
        if c4 = '=' then
          if rest = [] then some [s1 * 4 + s2 / 16] else none
        else none
      else
        match b64idx c3 with
        | some s3 =>
          if c4 = '=' then
            if rest = [] then some [s1 * 4 + s2 / 16, s2 % 16 * 16 + s3 / 4] else none
          else
            match b64idx c4 with
            | some s4 =>
              (b64decode rest).map
                (fun more => (s1 * 4 + s2 / 16) :: (s2 % 16 * 16 + s3 / 4) ::
                             (s3 % 4 * 64 + s4) :: more)
            | none => none
        | none => none
    | _, _ => none
  | _ => none

theorem b64idx_b64chr : ∀ n, n < 64 → b64idx (b64chr n) = some n := by decide

theorem b64chr_ne_pad : ∀ n, n < 64 → b64chr n ≠ '=' := by decide

theorem b64chr_ne_colon : ∀ n, n < 64 → b64chr n ≠ ':' := by decide

theorem b64chr_not_space : ∀ n, n < 64 → isSpaceChar (b64chr n) = false := by decide

/-- Every character of a base64 encoding of bytes is an alphabet character
or the padding character. -/
theorem b64encode_chars (bs : List Nat) (hb : ∀ b ∈ bs, b < 256) :
    ∀ c ∈ b64encode bs, (∃ n, n < 64 ∧ c = b64chr n) ∨ c = '=' := by
  induction bs using b64encode.induct with
  | case1 => intro c hc; simp [b64encode] at hc
  | case2 a =>
    have ha : a < 256 := hb a (by simp)
    intro c hc
    simp only [b64encode, List.mem_cons, List.not_mem_nil, or_false] at hc
    rcases hc with h | h | h | h
    · exact Or.inl ⟨a / 4, by omega, h⟩
    · exact Or.inl ⟨a % 4 * 16, by omega, h⟩
    · exact Or.inr h
    · exact Or.inr h
  | case3 a b =>
    have ha : a < 256 := hb a (by simp)
    have hb2 : b < 256 := hb b (by simp)
    intro c hc
    simp only [b64encode, List.mem_cons, List.not_mem_nil, or_false] at hc
    rcases hc with h | h | h | h
    · exact Or.inl ⟨a / 4, by omega, h⟩
    · exact Or.inl ⟨a % 4 * 16 + b / 16, by omega, h⟩
    · exact Or.inl ⟨b % 16 * 4, by omega, h⟩
    · exact Or.inr h
  | case4 a b c rest ih =>
    have ha : a < 256 := hb a (by simp)
    have hb2 : b < 256 := hb b (by simp)
    have hc2 : c < 256 := hb c (by simp)
    have hrest : ∀ x ∈ rest, x < 256 := fun x hx => hb x (by simp [hx])
    intro d hd
    simp only [b64encode, List.mem_cons] at hd
    rcases hd with h | h | h | h | h
    · exact Or.inl ⟨a / 4, by omega, h⟩
    · exact Or.inl ⟨a % 4 * 16 + b / 16, by omega, h⟩
    · exact Or.inl ⟨b % 16 * 4 + c / 64, by omega, h⟩
    · exact Or.inl ⟨c % 64, by omega, h⟩
    · exact ih hrest d h

theorem b64encode_no_colon (bs : List Nat) (hb : ∀ b ∈ bs, b < 256) :
    ∀ c ∈ b64encode bs, c ≠ ':' := by
  intro c hc
  rcases b64encode_chars bs hb c hc with ⟨n, hn, rfl⟩ | rfl
  · exact b64chr_ne_colon n hn
  · decide

theorem b64encode_not_space (bs : List Nat) (hb : ∀ b ∈ bs, b < 256) :
    ∀ c ∈ b64encode bs, isSpaceChar c = false := by
  intro c hc
  rcases b64encode_chars bs hb c hc with ⟨n, hn, rfl⟩ | rfl
  · exact b64chr_not_space n hn
  · decide

/-- Round trip of the base64 model: decoding an encoding recovers the
bytes. -/
theorem b64decode_b64encode (bs : List Nat) (hb : ∀ b ∈ bs, b < 256) :
    b64decode (b64encode bs) = some bs := by
  induction bs using b64encode.induct with
  | case1 => simp [b64encode, b64decode]
  | case2 a =>
    have ha : a < 256 := hb a (by simp)
    have h1 := b64idx_b64chr (a / 4) (by omega)
    have h2 := b64idx_b64chr (a % 4 * 16) (by omega)
    simp only [b64encode, b64decode, h1, h2]
    simp
    try omega
  | case3 a b =>
    have ha : a < 256 := hb a (by simp)
    have hbb : b < 256 := hb b (by simp)
    have h1 := b64idx_b64chr (a / 4) (by omega)
    have h2 := b64idx_b64chr (a % 4 * 16 + b / 16) (by omega)
    have h3 := b64idx_b64chr (b % 16 * 4) (by omega)
    have hne : b64chr (b % 16 * 4) ≠ '=' := b64chr_ne_pad _ (by omega)
    simp only [b64encode, b64decode, h1, h2, h3, if_neg hne]
    simp
    try constructor <;> omega
  | case4 a b c rest ih =>
    have ha : a < 256 := hb a (by simp)
    have hbb : b < 256 := hb b (by simp)
    have hc : c < 256 := hb c (by simp)
    have hrest : ∀ x ∈ rest, x < 256 := by
      intro x hx; exact hb x (by simp [hx])
    have h1 := b64idx_b64chr (a / 4) (by omega)
    have h2 := b64idx_b64chr (a % 4 * 16 + b / 16) (by omega)
    have h3 := b64idx_b64chr (b % 16 * 4 + c / 64) (by omega)
    have h4 := b64idx_b64chr (c % 64) (by omega)
    have hne3 : b64chr (b % 16 * 4 + c / 64) ≠ '=' := b64chr_ne_pad _ (by omega)
    have hne4 : b64chr (c % 64) ≠ '=' := b64chr_ne_pad _ (by omega)
    simp only [b64encode, b64decode, h1, h2, h3, h4, if_neg hne3, if_neg hne4,
      ih hrest]
    simp
    try refine ⟨by omega, by omega, by omega⟩

/-! ## External cryptographic primitives

Go's `crypto/cipher` AES-256-GCM and `crypto/mlkem` ML-KEM-768 are
standard-library collaborators of this repository.  They are embedded as
structures whose functions the repository's code composes; the `Lawful`
predicates record exactly the stdlib contract the code relies on
(round-trip, 32-byte shared secrets, byte-valued outputs). -/

/-- An AEAD core: `aseal key nonce plaintext` and `aopen key nonce ct`
(Go `gcm.Seal(nil, nonce, pt, nil)` / `gcm.Open(nil, nonce, ct, nil)`;
`aopen` returns `none` on authentication failure). -/
structure GCM where
  aseal : List Nat → List Nat → List Nat → List Nat
  aopen : List Nat → List Nat → List Nat → Option (List Nat)

/-- The stdlib AEAD contract used by the code. -/
structure GCM.Lawful (G : GCM) : Prop where
  open_seal : ∀ k n pt, G.aopen k n (G.aseal k n pt) = some pt
  seal_bytes : ∀ k n pt, (∀ b ∈ pt, b < 256) → ∀ b ∈ G.aseal k n pt, b < 256

/-- A key-encapsulation mechanism over byte strings.  A private key is its
64-byte seed form (`dk.Bytes()`); `ekOf` is `dk.EncapsulationKey().Bytes()`;
`validEK`/`validDK` model `mlkem.NewEncapsulationKey768` /
`mlkem.NewDecapsulationKey768` succeeding; `encap ek r` is
`ek.Encapsulate()` with its random draw `r` made explicit; `decap` is
`dk.Decapsulate`, `none` on failure. -/
structure KEM where
  ekOf : List Nat → List Nat
  validEK : List Nat → Bool
  validDK : List Nat → Bool
  encap : List Nat → List Nat → List Nat × List Nat
  decap : List Nat → List Nat → Option (List Nat)

/-- The stdlib KEM contract used by the code (`mlkem.SharedKeySize = 32`;
decapsulating an honest encapsulation recovers the shared secret). -/
structure KEM.Lawful (K : KEM) : Prop where
  shared_len : ∀ ek r, (K.encap ek r).1.length = 32
  decap_encap : ∀ s r, (∀ b ∈ s, b < 256) →
    K.decap s (K.encap (K.ekOf s) r).2 = some (K.encap (K.ekOf s) r).1
  validEK_ekOf : ∀ s, K.validEK (K.ekOf s) = true
  validDK_seed : ∀ s, K.validDK s = true
  ct_bytes : ∀ ek r, (∀ b ∈ ek, b < 256) → (∀ b ∈ r, b < 256) →
    ∀ b ∈ (K.encap ek r).2, b < 256
  ek_bytes : ∀ s, (∀ b ∈ s, b < 256) → ∀ b ∈ K.ekOf s, b < 256

/-- Concrete lawful instance used to run the pipelines on closed inputs. -/
def toyGCM : GCM where
  aseal _ _ pt := pt ++ List.replicate 16 0
  aopen _ _ ct :=
    if 16 ≤ ct.length ∧ ct.drop (ct.length - 16) = List.replicate 16 0 then
      some (ct.take (ct.length - 16))
    else none

theorem toyGCM_lawful : toyGCM.Lawful := by
  constructor
  · intro k n pt
    simp [toyGCM]
  · intro k n pt hpt b hb
    simp only [toyGCM, List.mem_append, List.mem_replicate] at hb
    rcases hb with h | h
    · exact hpt b h
    · omega

/-- Concrete lawful instance used to run the pipelines on closed inputs. -/
def toyKEM : KEM where
  ekOf s := s
  validEK _ := true
  validDK _ := true
  encap ek r := (List.replicate 32 0, ek ++ r)
  decap dk ct :=
    if dk.length ≤ ct.length ∧ ct.take dk.length = dk then
      some (List.replicate 32 0)
    else none

theorem toyKEM_lawful : toyKEM.Lawful := by
  constructor
  · intro ek r; simp [toyKEM]
  · intro s r _
    simp [toyKEM]
  · intro s; rfl
  · intro s; rfl
  · intro ek r hek hr b hb
    simp only [toyKEM, List.mem_append] at hb
    rcases hb with h | h
    · exact hek b h
    · exact hr b h
  · intro s hs b hb; exact hs b hb

/-! ## AES helpers (src/unnamed/part_012, `encryptAESGCM`/`decryptAESGCM`) -/

/-- Constant `nonceSizeGCM = 12`. -/
def nonceSizeGCM : Nat := 12

/-- Function `encryptAESGCM` from src/unnamed/part_012: checks the 32-byte key,
draws a fresh 12-byte `nonce` from the random source (threaded explicitly
here), and returns `nonce ‖ ciphertext`. -/
def encryptAESGCM (G : GCM) (key nonce plaintext : List Nat) :
    Except String (List Nat) :=
  if key.length ≠ 32 then Except.error "key must be 32 bytes for AES-256-GCM"
  else Except.ok (nonce ++ G.aseal key nonce plaintext)

/-- Function `decryptAESGCM` from src/unnamed/part_012: expects
`blob = nonce ‖ ciphertext`. -/
def decryptAESGCM (G : GCM) (key blob : List Nat) : Except String (List Nat) :=
  if key.length ≠ 32 then Except.error "key must be 32 bytes for AES-256-GCM"
  else if blob.length < nonceSizeGCM then Except.error "gcm blob too short"
  else
    match G.aopen key (blob.take nonceSizeGCM) (blob.drop nonceSizeGCM) with
    | some pt => Except.ok pt
    | none => Except.error "cipher: message authentication failed"

/-! ## Sealed-value format (src/unnamed/part_012) -/

/-- Constant `OJSTER-1:` (Go constant named after the format-version tag of a sealed value). -/
def sealedTag : List Char := "OJSTER-1:".data

/-- The per-key failure kinds of the unseal pipeline (spec §7 taxonomy for
the operation/codec layers exercised by `decryptCore` and
`loadDecapsulationKey`). -/
inductive UnsealFailure where
  | privKeyFileUnreadable
  | invalidPrivateKeyBase64
  | invalidPrivateKey
  | valueNotSealed
  | malformedSealedValue
  | invalidMlkemBase64
  | invalidGcmBase64
  | decapsulationFailed
  | unexpectedSharedKeySize
  | decryptionFailed
  deriving DecidableEq

/-- Function `loadDecapsulationKey` from src/unnamed/part_012: reads the private key
file (its content, or `none` when unreadable, is passed in), trims,
base64-decodes, and constructs the decapsulation key.  The path text
interpolated into the Go messages is elided. -/
def loadDecapsulationKey (K : KEM) (privContent : Option (List Char)) :
    Except (UnsealFailure × String) (List Nat) :=
  match privContent with
  | none =>
    Except.error (UnsealFailure.privKeyFileUnreadable, "failed to read private key file")
  | some content =>
    match b64decode (trimSpace content) with
    | none =>
      Except.error (UnsealFailure.invalidPrivateKeyBase64, "invalid base64 private key")
    | some privBytes =>
      if K.validDK privBytes then Except.ok privBytes
      else Except.error (UnsealFailure.invalidPrivateKey, "invalid private key")

/-! ## decryptCore and the unseal pipeline (src/unnamed/part_012) -/

/-- The select-all step of `decryptCore` (lines 278-284): collect every key
whose stored value starts with the sealed tag and sort them
(`sort.Strings`); Go's random map-iteration order is erased by the sort. -/
def selectSealed (envMap : List (String × List Char)) : List String :=
  sortStrings ((envMap.filter (fun kv => startsWith kv.2 sealedTag)).map Prod.fst)

/-- The per-key loop of `decryptCore` (lines 306-349): parse, base64-decode,
decapsulate and decrypt each selected key in order, short-circuiting with
the first failure (which discards everything decrypted so far, as in the
Go `return nil, nil, 1, msg`).  The `%v` error details Go appends to the
base64/decapsulation messages are elided. -/
def processKeys (K : KEM) (G : GCM) (envMap : List (String × List Char))
    (dk : List Nat) : List String →
    Except (UnsealFailure × String) (List (String × List Nat))
  | [] => Except.ok []
  | k :: rest =>
    let stored := (lookupEnv envMap k).getD []
    if startsWith stored sealedTag then
      match splitFirstColon (stored.drop sealedTag.length) with
      | none =>
        Except.error (UnsealFailure.malformedSealedValue,
          "sealed value for " ++ k ++ " malformed")
      | some (mlkemB64, gcmB64) =>
        match b64decode mlkemB64 with
        | none =>
          Except.error (UnsealFailure.invalidMlkemBase64,
            "invalid base64 mlkem ciphertext for " ++ k)
        | some mlkemCiphertext =>
          match b64decode gcmB64 with
          | none =>
            Except.error (UnsealFailure.invalidGcmBase64,
              "invalid base64 gcm blob for " ++ k)
          | some gcmBlob =>
            match K.decap dk mlkemCiphertext with
            | none =>
              Except.error (UnsealFailure.decapsulationFailed,
                "decapsulation failed for " ++ k)
            | some sharedKey =>
              if sharedKey.length ≠ 32 then
                Except.error (UnsealFailure.unexpectedSharedKeySize,
                  "unexpected shared key size for " ++ k)
              else
                match decryptAESGCM G sharedKey gcmBlob with
                | Except.error e =>
                  Except.error (UnsealFailure.decryptionFailed,
                    "decryption failed for " ++ k ++ ": " ++ e)
                | Except.ok plaintext =>
                  (processKeys K G envMap dk rest).map (fun m => (k, plaintext) :: m)
    else
      Except.error (UnsealFailure.valueNotSealed,
        "value for " ++ k ++ " does not appear to be sealed (missing prefix)")

/-- The selection/validation/decryption core, `decryptCore` from
src/unnamed/part_012 lines 276-353.  Returns
(decrypted map, resolved keys, exit code, error message). -/
def decryptCore (K : KEM) (G : GCM) (envMap : List (String × List Char))
    (dk : List Nat) (keys : List String) (sourceDesc : String) :
    List (String × List Nat) × List String × Nat × String :=
  let keys1 := if keys.isEmpty then selectSealed envMap else keys
  if keys.isEmpty ∧ keys1.isEmpty then
    ([], keys1, 0, "")
  else
    let missing := keys1.filter (fun k => (lookupEnv envMap k).isNone)
    if missing.isEmpty then
      match processKeys K G envMap dk keys1 with
      | Except.error (_, msg) => ([], [], 1, msg)
      | Except.ok decrypted => (decrypted, keys1, 0, "")
    else
      ([], [], 2,
        "missing keys in " ++ sourceDesc ++ ": " ++ String.intercalate ", " missing)

/-- Function `UnsealMap` from src/unnamed/part_012 lines 237-251: load the
decapsulation key, run `decryptCore` over the in-memory map with source
description `"<map input>"`, and return `none` (Go `nil`) plus the code and
message on any failure. -/
def UnsealMap (K : KEM) (G : GCM) (envMap : List (String × List Char))
    (privContent : Option (List Char)) (keys : List String) :
    Option (List (String × List Nat)) × Nat × String :=
  match loadDecapsulationKey K privContent with
  | Except.error (_, msg) => (none, 1, msg)
  | Except.ok dk =>
    match decryptCore K G envMap dk keys "<map input>" with
    | (decrypted, _, 0, _) => (some decrypted, 0, "")
    | (_, _, code, msg) => (none, code, msg)

/-- Go `string(bytes)` for the byte strings handled here, viewing each byte
as a code point (exact for the ASCII data these values carry). -/
def bytesToString (bs : List Nat) : String := String.mk (bs.map Char.ofNat)

/-- The escape table shared by the env-file and JSON escapers below:
backslash, double quote, and the common control characters, each mapped to
its two-character escape. -/
def escChar (c : Char) : List Char :=
  if c = '\\' then ['\\', '\\']
  else if c = '"' then ['\\', '"']
  else if c = '\n' then ['\\', 'n']
  else if c = '\r' then ['\\', 'r']
  else if c = '\t' then ['\\', 't']
  else [c]

/-- Function `escapeDoubleQuoted` from src/internal/util/env/env.go. -/
def escapeDoubleQuoted (s : String) : String :=
  String.mk (s.data.foldr (fun c acc => escChar c ++ acc) [])

/-- Function `FormatEnvEntry` from src/internal/util/env/env.go. -/
def FormatEnvEntry (key value : String) : String :=
  if value.data.contains '\n' then
    if value.data.contains '\'' ∨ (value.data.getLast? = some '\n') then
      key ++ "=\"" ++ escapeDoubleQuoted value ++ "\""
    else
      key ++ "='" ++ value ++ "'"
  else if value = "" then
    key ++ "="
  else if value.data.any
      (fun c => c = ' ' ∨ c = '#' ∨ c = '"' ∨ c = '\'' ∨ c = '\\' ∨ c = '\t' ∨ c = '\r') then
    key ++ "=\"" ++ escapeDoubleQuoted value ++ "\""
  else
    key ++ "=" ++ value

/-- JSON escaping for `encoding/json` string values as used on the decrypted
ASCII outputs of this code (quote, backslash and the common control
characters; finer points of Go's escaper are not exercised here). -/
def jsonEscape (s : String) : String :=
  String.mk (s.data.foldr (fun c acc => escChar c ++ acc) [])

/-- Go `json.Marshal` of a `map[string]string`: a JSON object with the keys
in sorted order. -/
def jsonMarshalMap (m : List (String × String)) : String :=
  "\x7b" ++
  String.intercalate ","
    ((sortStrings (m.map Prod.fst)).map
      (fun k => "\"" ++ jsonEscape k ++ "\":\"" ++
        jsonEscape ((lookupEnv m k).getD "") ++ "\"")) ++
  "\x7d"

/-- Go `strings.TrimRight(s, "\n")`. -/
def trimRightNewlines (s : List Char) : List Char :=
  (s.reverse.dropWhile (fun c => c = '\n')).reverse

/-- Function `unsealCore` from src/unnamed/part_012 lines 355-382.  Returns
(text written to `outw`, text written to `errw`, exit code). -/
def unsealCore (K : KEM) (G : GCM) (envMap : List (String × List Char))
    (dk : List Nat) (keys : List String) (jsonOut : Bool) (sourceDesc : String) :
    String × String × Nat :=
  match decryptCore K G envMap dk keys sourceDesc with
  | (decrypted, resolvedKeys, code, msg) =>
    if code ≠ 0 then ("", msg ++ "\n", code)
    else if jsonOut then
      (jsonMarshalMap (decrypted.map (fun kv => (kv.1, bytesToString kv.2))), "", 0)
    else
      let result := trimRightNewlines (String.join
        (resolvedKeys.map (fun k =>
          FormatEnvEntry k (bytesToString ((lookupEnv decrypted k).getD [])) ++ "\n"))).data
      (String.mk result, "", 0)

/-! ## Seal and Keypair (src/unnamed/part_012) -/

/-- The private key file content `KeypairWithPaths` writes:
`base64(dk.Bytes()) + "\n"`. -/
def privKeyFileContent (seed : List Nat) : List Char :=
  b64encode seed ++ ['\n']

/-- The public key file content `KeypairWithPaths` writes:
`base64(ek.Bytes()) + "\n"`. -/
def pubKeyFileContent (K : KEM) (seed : List Nat) : List Char :=
  b64encode (K.ekOf seed) ++ ['\n']

/-- Function `SealWithPlaintext` from src/unnamed/part_012 lines 160-208, from the
public-key-file read through building the sealed value.  The file content
(`none` when unreadable) and the KEM's random draw are explicit; the
value returned on success is the sealed string the code persists via
`env.UpdateEnvFile`. -/
def SealWithPlaintext (K : KEM) (G : GCM) (pubContent : Option (List Char))
    (plaintext : List Nat) (encapRand : List Nat) (nonce : List Nat) :
    Except (Nat × String) (List Char) :=
  match pubContent with
  | none => Except.error (1, "failed to read public key file")
  | some content =>
    match b64decode (trimSpace content) with
    | none => Except.error (1, "invalid base64 public key")
    | some pubBytes =>
      if K.validEK pubBytes then
        let shared := (K.encap pubBytes encapRand).1
        let mlkemCiphertext := (K.encap pubBytes encapRand).2
        if shared.length ≠ 32 then
          Except.error (1, "unexpected shared key size")
        else
          match encryptAESGCM G shared nonce plaintext with
          | Except.error e => Except.error (1, "encryption failed: " ++ e)
          | Except.ok gcmBlob =>
            Except.ok (sealedTag ++ b64encode mlkemCiphertext ++ [':'] ++ b64encode gcmBlob)
      else
        Except.error (1, "invalid public key")

/-! ## Keypair file effects (src/unnamed/part_012 lines 111-155 +
src/internal/util/file/file.go) -/

/-- An abstract filesystem: path → file content. -/
def FS := List (String × List Char)

/-- Remove a path (Go `os.Remove`). -/
def fsRemove (fs : List (String × List Char)) (path : String) :
    List (String × List Char) :=
  fs.filter (fun kv => kv.1 ≠ path)

/-- Atomically write a file (`file.WriteFileAtomic`): the target either gets
the full new content or is left untouched. -/
def fsSet (fs : List (String × List Char)) (path : String) (content : List Char) :
    List (String × List Char) :=
  (path, content) :: fsRemove fs path

/-- Function `KeypairWithPaths` from src/unnamed/part_012 lines 111-155 as a
filesystem transformer.  `privWriteOk`/`pubWriteOk` are the outcomes of the
two `file.WriteFileAtomic` calls (which on failure leave the target
untouched); the function returns the final filesystem and the exit code.
On a public-key write failure the private key file is removed
(`os.Remove(privPath)`) before returning 1. -/
def KeypairWithPaths (K : KEM) (fs : List (String × List Char))
    (privPath pubPath : String) (seed : List Nat)
    (privWriteOk pubWriteOk : Bool) : List (String × List Char) × Nat :=
  if privWriteOk then
    let fs1 := fsSet fs privPath (privKeyFileContent seed)
    if pubWriteOk then
      (fsSet fs1 pubPath (pubKeyFileContent K seed), 0)
    else
      (fsRemove fs1 privPath, 1)
  else
    (fs, 1)

/-! ## Decryption request handler (src/unnamed/part_015) -/

/-- Regexp `env.KeyNameRegex` from src/internal/util/env/env.go lines 31-32:
`^[A-Z][A-Z0-9_]*$`, the regexp `handlePost` applies to every incoming
request key. -/
def keyNameOK (s : String) : Bool :=
  match s.data with
  | [] => false
  | c :: rest =>
    (decide ('A' ≤ c) && decide (c ≤ 'Z')) &&
    rest.all (fun d =>
      (decide ('A' ≤ d) && decide (d ≤ 'Z')) ||
      (decide ('0' ≤ d) && decide (d ≤ '9')) || d = '_')

/-- Stated from the spec's words (§6 Key Name grammar): the looser
`^[A-Za-z_][A-Za-z0-9_]*$` the spec says the server path accepts, kept
separate so it can be compared with the grammar the code applies. -/
def looseKeyNameOK (s : String) : Bool :=
  match s.data with
  | [] => false
  | c :: rest =>
    ((decide ('A' ≤ c) && decide (c ≤ 'Z')) ||
     (decide ('a' ≤ c) && decide (c ≤ 'z')) || c = '_') &&
    rest.all (fun d =>
      (decide ('A' ≤ d) && decide (d ≤ 'Z')) ||
      (decide ('a' ≤ d) && decide (d ≤ 'z')) ||
      (decide ('0' ≤ d) && decide (d ≤ '9')) || d = '_')

/-- The key-name validation loop of `handlePost` (src/unnamed/part_015
lines 210-217): the request is rejected `400 Bad Request` with this message
as soon as some key fails `env.KeyNameRegex`. -/
def validateRequestKeys (incoming : List (String × String)) : Option String :=
  (incoming.find? (fun kv => !keyNameOK kv.1)).map
    (fun kv => "invalid key name in request: " ++ kv.1)

/-- An HTTP-style response: `200` with a JSON map body, or an error status
with a plain-text message (Go `http.Error`). -/
inductive HResp where
  | ok (body : List (String × String))
  | err (status : Nat) (msg : String)
  deriving DecidableEq

/-- The response tail of `handlePostDirectUnseal` (src/unnamed/part_015
lines 241-263) applied to the result map of the in-process unseal: reject
extra keys with 502, filter to the requested allow-list, reject an empty
result with 502, else 200. -/
def directUnsealTail (requestedKeys : List String)
    (outMap : List (String × String)) : HResp :=
  if outMap.any (fun kv => !requestedKeys.contains kv.1) then
    HResp.err 502 "unseal returned unexpected keys"
  else if (requestedKeys.filterMap
      (fun k => (lookupEnv outMap k).map (fun v => (k, v)))).isEmpty then
    HResp.err 502 "unseal produced no acceptable env entries"
  else
    HResp.ok (requestedKeys.filterMap
      (fun k => (lookupEnv outMap k).map (fun v => (k, v))))

/-- The response tail of `handlePostSubprocessUnseal` (src/unnamed/part_015
lines 326-348) applied to the JSON map the subprocess printed. -/
def subprocessUnsealTail (requestedKeys : List String)
    (outMap : List (String × String)) : HResp :=
  if outMap.any (fun kv => !requestedKeys.contains kv.1) then
    HResp.err 502 "subprocess returned unexpected keys"
  else if (requestedKeys.filterMap
      (fun k => (lookupEnv outMap k).map (fun v => (k, v)))).isEmpty then
    HResp.err 502 "subprocess produced no acceptable env entries"
  else
    HResp.ok (requestedKeys.filterMap
      (fun k => (lookupEnv outMap k).map (fun v => (k, v))))

/-- Modelled from the spec: the `pqc.ErrConfig` classification used by
`handlePostDirectUnseal` (src/unnamed/part_015 line 232).  The pqc revision
defining `ErrConfig`/`ErrUnseal` is not under src/ (only its tests in
src/internal/pqc/pqc_test.go and this caller are), so per spec §4.5 the
"can't even load the private key" class — `PrivateKeyFileUnreadable`,
`InvalidPrivateKeyBase64`, `InvalidPrivateKey` — is the configuration
class, and every per-value failure is not. -/
def isErrConfig : UnsealFailure → Bool
  | UnsealFailure.privKeyFileUnreadable => true
  | UnsealFailure.invalidPrivateKeyBase64 => true
  | UnsealFailure.invalidPrivateKey => true
  | _ => false

/-- The error switch of `handlePostDirectUnseal` (src/unnamed/part_015
lines 230-238): `errors.Is(err, pqc.ErrConfig)` → 500, anything else
→ 502, with the error text as body. -/
def directUnsealErrResponse (e : UnsealFailure × String) : HResp :=
  if isErrConfig e.1 then HResp.err 500 e.2 else HResp.err 502 e.2

/-! ## Supporting lemmas -/

theorem lookupEnv_fsRemove (fs : List (String × List Char)) (p : String) :
    lookupEnv (fsRemove fs p) p = none := by
  induction fs with
  | nil => rfl
  | cons kv rest ih =>
    by_cases h : kv.1 = p
    · simpa [fsRemove, h] using ih
    · simpa [fsRemove, h, lookupEnv] using ih


theorem startsWith_append (tag rest : List Char) :
    startsWith (tag ++ rest) tag = true := by
  induction tag with
  | nil => cases rest <;> rfl
  | cons c cs ih => simp [startsWith, ih]

theorem splitFirstColon_append (xs ys : List Char) (h : ∀ c ∈ xs, c ≠ ':') :
    splitFirstColon (xs ++ ':' :: ys) = some (xs, ys) := by
  induction xs with
  | nil => simp [splitFirstColon]
  | cons c cs ih =>
    have hc : c ≠ ':' := h c (by simp)
    have ihh := ih (fun d hd => h d (by simp [hd]))
    simp [splitFirstColon, hc, ihh]

theorem splitFirstColon_eq_none_iff (l : List Char) :
    splitFirstColon l = none ↔ ∀ c ∈ l, c ≠ ':' := by
  induction l with
  | nil => simp [splitFirstColon]
  | cons c cs ih =>
    by_cases hc : c = ':'
    · simp [splitFirstColon, hc]
    · simp only [splitFirstColon, if_neg hc]
      constructor
      · intro h d hd
        rcases List.mem_cons.mp hd with rfl | hd2
        · exact hc
        · exact (ih.mp (by
            cases hsp : splitFirstColon cs with
            | none => rfl
            | some p => simp [hsp] at h)) d hd2
      · intro h
        have : splitFirstColon cs = none := ih.mpr (fun d hd => h d (by simp [hd]))
        simp [this]

theorem dropWhile_of_clean {p : Char → Bool} {xs : List Char}
    (h : ∀ c ∈ xs, p c = false) : xs.dropWhile p = xs := by
  cases xs with
  | nil => rfl
  | cons c cs => simp [List.dropWhile, h c (by simp)]

theorem trimSpace_encode_newline (xs : List Char)
    (h : ∀ c ∈ xs, isSpaceChar c = false) :
    trimSpace (xs ++ ['\n']) = xs := by
  unfold trimSpace
  cases hx : xs with
  | nil => subst hx; decide
  | cons c cs =>
    have hc : isSpaceChar c = false := by
      rw [hx] at h; exact h c (by simp)
    have h1 : (xs ++ ['\n']).dropWhile isSpaceChar = xs ++ ['\n'] := by
      rw [hx]; simp [List.dropWhile, hc]
    rw [← hx, h1]
    have h2 : (xs ++ ['\n']).reverse = '\n' :: xs.reverse := by simp
    rw [h2]
    have h3 : ('\n' :: xs.reverse).dropWhile isSpaceChar = xs.reverse.dropWhile isSpaceChar := by
      simp [List.dropWhile, isSpaceChar]
    rw [h3]
    have h4 : xs.reverse.dropWhile isSpaceChar = xs.reverse := by
      apply dropWhile_of_clean
      intro d hd
      exact h d (List.mem_reverse.mp hd)
    rw [h4, List.reverse_reverse]

theorem mem_insertLe {x y : String} {l : List String} :
    y ∈ insertLe x l ↔ y = x ∨ y ∈ l := by
  induction l with
  | nil => simp [insertLe]
  | cons z zs ih =>
    by_cases h : leStr x z = true
    · simp only [insertLe, if_pos h, List.mem_cons]
    · simp only [insertLe, if_neg h, List.mem_cons, ih]
      tauto

theorem mem_sortStrings {y : String} {l : List String} :
    y ∈ sortStrings l ↔ y ∈ l := by
  induction l with
  | nil => simp [sortStrings]
  | cons z zs ih =>
    simp only [sortStrings, List.foldr_cons] at ih ⊢
    rw [mem_insertLe, ih, List.mem_cons]

theorem sortStrings_eq_nil_iff {l : List String} :
    sortStrings l = [] ↔ l = [] := by
  cases l with
  | nil => simp [sortStrings]
  | cons z zs =>
    simp only [sortStrings, List.foldr_cons]
    constructor
    · intro h
      have : z ∈ insertLe z (zs.foldr insertLe []) := mem_insertLe.mpr (Or.inl rfl)
      rw [h] at this
      simp at this
    · intro h; cases h

theorem leChars_total (a b : List Char) : leChars a b = true ∨ leChars b a = true := by
  induction a generalizing b with
  | nil => left; rfl
  | cons c cs ih =>
    cases b with
    | nil => right; rfl
    | cons d ds =>
      by_cases h : c = d
      · subst h
        simpa [leChars] using ih ds
      · rcases lt_trichotomy c d with hlt | heq | hgt
        · left; simp [leChars, h, hlt]
        · exact absurd heq h
        · right
          have hdc : ¬ d = c := fun hh => h hh.symm
          simp [leChars, hdc, hgt]

theorem leStr_total (a b : String) : leStr a b = true ∨ leStr b a = true :=
  leChars_total a.data b.data

/-- Adjacent sortedness (the natural statement of "in lexicographically
sorted order"). -/
abbrev SortedLe (l : List String) : Prop :=
  List.Chain' (fun a b => leStr a b = true) l

theorem chain'_insertLe {x : String} {l : List String}
    (h : SortedLe l) : SortedLe (insertLe x l) := by
  induction l with
  | nil => simp [insertLe, SortedLe]
  | cons z zs ih =>
    by_cases hle : leStr x z = true
    · simp only [insertLe, if_pos hle]
      exact List.Chain'.cons hle h
    · have hzx : leStr z x = true := by
        rcases leStr_total x z with h1 | h1
        · exact absurd h1 hle
        · exact h1
      have hins : SortedLe (insertLe x zs) := ih h.tail
      simp only [insertLe, if_neg hle]
      refine List.chain'_cons'.mpr ⟨?_, hins⟩
      intro w hw
      cases zs with
      | nil =>
        simp only [insertLe, List.head?_cons, Option.mem_def, Option.some.injEq] at hw
        subst hw
        exact hzx
      | cons u us =>
        by_cases hxu : leStr x u = true
        · simp only [insertLe, if_pos hxu, List.head?_cons, Option.mem_def,
            Option.some.injEq] at hw
          subst hw
          exact hzx
        · simp only [insertLe, if_neg hxu, List.head?_cons, Option.mem_def,
            Option.some.injEq] at hw
          subst hw
          exact (List.chain'_cons.mp h).1

theorem sortStrings_sorted (l : List String) : SortedLe (sortStrings l) := by
  induction l with
  | nil => simp [sortStrings, SortedLe]
  | cons z zs ih =>
    simp only [sortStrings, List.foldr_cons] at ih ⊢
    exact chain'_insertLe ih

/-! ## Claim theorems -/

/-- C9: for every 32-byte key and plaintext, two calls of the AEAD encrypt
operation with the same key and plaintext produce different output blobs
whenever the two 12-byte nonces drawn from the random source differ (the
blob begins with the fresh nonce, so distinct draws yield distinct
blobs). -/
theorem c9_nonce_freshness (G : GCM) (key n1 n2 plaintext : List Nat)
    (hk : key.length = 32) (h1 : n1.length = 12) (h2 : n2.length = 12)
    (hne : n1 ≠ n2) :
    encryptAESGCM G key n1 plaintext ≠ encryptAESGCM G key n2 plaintext := by
  intro heq
  simp only [encryptAESGCM, hk, ne_eq, not_true_eq_false, if_false,
    Except.ok.injEq] at heq
  apply hne
  have := congrArg (List.take 12) heq
  rwa [List.take_left' h1, List.take_left' h2] at this

/-- C9 witness: two concrete encryptions under distinct nonces differ. -/
theorem c9_nonce_freshness_witness :
    encryptAESGCM toyGCM (List.replicate 32 0) (List.replicate 12 0) [5] ≠
      encryptAESGCM toyGCM (List.replicate 32 0) (List.replicate 11 0 ++ [1]) [5] :=
  c9_nonce_freshness toyGCM (List.replicate 32 0) (List.replicate 12 0)
    (List.replicate 11 0 ++ [1]) [5] (by simp) (by simp) (by simp) (by decide)

/-- C7: in the keypair operation, if writing the public key file fails
after the private key file was successfully written, the operation exits
with code 1 and the private key file does not exist afterward. -/
theorem c7_keypair_atomicity (K : KEM) (fs : List (String × List Char))
    (privPath pubPath : String) (seed : List Nat) :
    (KeypairWithPaths K fs privPath pubPath seed true false).2 = 1 ∧
    lookupEnv (KeypairWithPaths K fs privPath pubPath seed true false).1 privPath
      = none := by
  constructor
  · rfl
  · simpa [KeypairWithPaths] using
      lookupEnv_fsRemove (fsSet fs privPath (privKeyFileContent seed)) privPath

/-- C2: in both handler modes, a backend result containing any key not in
the original request is answered `502` with the unexpected-keys error (a
response that carries no decrypted keys), and any `200` body's key set is a
subset of the requested keys. -/
theorem mem_allowFilter {requested : List String} {outMap : List (String × String)}
    {kv : String × String}
    (h : kv ∈ requested.filterMap (fun k => (lookupEnv outMap k).map (fun v => (k, v)))) :
    kv.1 ∈ requested := by
  obtain ⟨k, hk, hsome⟩ := List.mem_filterMap.mp h
  cases hlk : lookupEnv outMap k with
  | none => rw [hlk] at hsome; cases hsome
  | some v =>
    rw [hlk] at hsome
    injection hsome with h2
    subst h2
    exact hk

theorem c2_allow_list_filter (requested : List String)
    (outMap : List (String × String)) :
    ((∃ kv ∈ outMap, requested.contains kv.1 = false) →
      directUnsealTail requested outMap =
        HResp.err 502 "unseal returned unexpected keys" ∧
      subprocessUnsealTail requested outMap =
        HResp.err 502 "subprocess returned unexpected keys") ∧
    (∀ body, directUnsealTail requested outMap = HResp.ok body →
      ∀ kv ∈ body, kv.1 ∈ requested) ∧
    (∀ body, subprocessUnsealTail requested outMap = HResp.ok body →
      ∀ kv ∈ body, kv.1 ∈ requested) := by
  have hany : (∃ kv ∈ outMap, requested.contains kv.1 = false) →
      (outMap.any (fun kv => !requested.contains kv.1)) = true := by
    intro ⟨kv, hmem, hc⟩
    exact List.any_eq_true.mpr ⟨kv, hmem, by rw [hc]; rfl⟩
  refine ⟨fun h => ?_, fun body hbody => ?_, fun body hbody => ?_⟩
  · have hext := hany h
    constructor
    · unfold directUnsealTail
      rw [if_pos hext]
    · unfold subprocessUnsealTail
      rw [if_pos hext]
  · intro kv hkv
    unfold directUnsealTail at hbody
    by_cases hext : (outMap.any (fun kv => !requested.contains kv.1)) = true
    · rw [if_pos hext] at hbody; cases hbody
    · rw [if_neg hext] at hbody
      split at hbody
      · cases hbody
      · cases hbody
        exact mem_allowFilter hkv
  · intro kv hkv
    unfold subprocessUnsealTail at hbody
    by_cases hext : (outMap.any (fun kv => !requested.contains kv.1)) = true
    · rw [if_pos hext] at hbody; cases hbody
    · rw [if_neg hext] at hbody
      split at hbody
      · cases hbody
      · cases hbody
        exact mem_allowFilter hkv

/-- C2 witness: a backend result with the unrequested key `B` is rejected
502 by both modes. -/
theorem c2_allow_list_filter_witness :
    directUnsealTail ["A"] [("B", "x")] =
      HResp.err 502 "unseal returned unexpected keys" ∧
    subprocessUnsealTail ["A"] [("B", "x")] =
      HResp.err 502 "subprocess returned unexpected keys" :=
  (c2_allow_list_filter ["A"] [("B", "x")]).1 ⟨("B", "x"), by simp, by decide⟩

/-- C3 counterexample: requesting the missing keys `["B", "A"]` yields exit
code 2 and the message listing them in request order `"B, A"`, not in
sorted order (`"A, B"`), so the claimed "sorted" missing-key list is false
on the code. -/
theorem c3_counterexample :
    decryptCore toyKEM toyGCM [] [] ["B", "A"] "src" =
      ([], [], 2, "missing keys in src: B, A") ∧
    "missing keys in src: B, A" ≠
      "missing keys in src: " ++ String.intercalate ", " (sortStrings ["B", "A"]) := by
  constructor
  · rfl
  · decide

/-- C3 (amended): for every source map and non-empty requested-key list
with at least one absent key, `decryptCore` fails with exit code 2 and a
message naming the source and the missing keys — the missing list is
deterministic, in request order (not sorted). -/
theorem c3_missing_keys (K : KEM) (G : GCM) (envMap : List (String × List Char))
    (dk : List Nat) (keys : List String) (sourceDesc : String)
    (hkeys : keys ≠ [])
    (hmiss : keys.filter (fun k => (lookupEnv envMap k).isNone) ≠ []) :
    decryptCore K G envMap dk keys sourceDesc =
      ([], [], 2, "missing keys in " ++ sourceDesc ++ ": " ++
        String.intercalate ", "
          (keys.filter (fun k => (lookupEnv envMap k).isNone))) := by
  have h1 : keys.isEmpty = false := by
    cases keys with
    | nil => exact absurd rfl hkeys
    | cons a l => rfl
  have h2 : (keys.filter (fun k => (lookupEnv envMap k).isNone)).isEmpty = false := by
    cases hf : keys.filter (fun k => (lookupEnv envMap k).isNone) with
    | nil => exact absurd hf hmiss
    | cons a l => rfl
  unfold decryptCore
  rw [h1]
  simp only [Bool.false_eq_true, if_false, false_and, h2]

/-- C3 witness: the amended statement at the concrete missing request. -/
theorem c3_missing_keys_witness :
    decryptCore toyKEM toyGCM [("A", [])] [] ["C", "B"] "s" =
      ([], [], 2, "missing keys in s: C, B") :=
  c3_missing_keys toyKEM toyGCM [("A", [])] [] ["C", "B"] "s"
    (by decide) (by decide)

/-- C4 counterexample: the lowercase key name `foo` matches the looser
grammar, yet the handler's validation loop rejects the request
`{"foo": "v"}` with the 400 invalid-key-name error, refuting the claim
that requests whose keys match the looser grammar are not rejected. -/
theorem c4_counterexample :
    looseKeyNameOK "foo" = true ∧
    validateRequestKeys [("foo", "v")] =
      some "invalid key name in request: foo" := by
  constructor
  · decide
  · rfl

/-- C4 (amended): the handler accepts an incoming request's key names iff
every key matches the strict stored-entry grammar `^[A-Z][A-Z0-9_]*$`
(`env.KeyNameRegex`) — the same grammar as stored entries, not the looser
one; strict names do also satisfy the looser grammar. -/
theorem c4_strict_validation (incoming : List (String × String)) :
    (validateRequestKeys incoming = none ↔
      ∀ kv ∈ incoming, keyNameOK kv.1 = true) ∧
    (∀ s, keyNameOK s = true → looseKeyNameOK s = true) := by
  constructor
  · unfold validateRequestKeys
    rw [Option.map_eq_none', List.find?_eq_none]
    constructor
    · intro h kv hkv
      have := h kv hkv
      simpa using this
    · intro h kv hkv
      simpa using h kv hkv
  · intro s hs
    unfold keyNameOK at hs
    unfold looseKeyNameOK
    cases hd : s.data with
    | nil => rw [hd] at hs; cases hs
    | cons c rest =>
      rw [hd] at hs
      simp only [Bool.and_eq_true, List.all_eq_true, decide_eq_true_eq] at hs
      obtain ⟨⟨hc1, hc2⟩, hrest⟩ := hs
      simp only [Bool.and_eq_true, Bool.or_eq_true, List.all_eq_true,
        decide_eq_true_eq]
      refine ⟨Or.inl (Or.inl ⟨hc1, hc2⟩), fun d hd2 => ?_⟩
      have h3 := hrest d hd2
      simp only [Bool.or_eq_true, Bool.and_eq_true, decide_eq_true_eq] at h3
      rcases h3 with (h | h) | h
      · exact Or.inl (Or.inl (Or.inl h))
      · exact Or.inl (Or.inr h)
      · exact Or.inr h

/-- C4 witness: a strict key name also satisfies the looser grammar. -/
theorem c4_strict_validation_witness : looseKeyNameOK "FOO_1" = true :=
  (c4_strict_validation []).2 "FOO_1" (by decide)

/-- C5 counterexample: the stored value `OJSTER-1::xxx` (empty first
base64 segment) passes the parse step — the split yields two parts, the
first empty — and fails later, at base64-decoding the gcm segment, not
with the malformed-sealed-value parse error the claim requires. -/
theorem c5_counterexample :
    processKeys toyKEM toyGCM [("K", "OJSTER-1::xxx".data)] [] ["K"] =
      Except.error (UnsealFailure.invalidGcmBase64,
        "invalid base64 gcm blob for K") ∧
    UnsealFailure.invalidGcmBase64 ≠ UnsealFailure.malformedSealedValue := by
  constructor
  · rfl
  · decide

/-- C5 (amended): for a stored value carrying the sealed tag, the per-key
parse step fails with exit code 1 and the malformed-sealed-value error
naming the key iff splitting the stripped payload on the first separator
yields no split at all (no separator present); payloads that split into
two parts are accepted by the parse step even when a part is empty. -/
theorem c5_parse_step (K : KEM) (G : GCM) (dk : List Nat) (k : String)
    (payload : List Char) (src : String) :
    ((∃ msg, processKeys K G [(k, sealedTag ++ payload)] dk [k] =
        Except.error (UnsealFailure.malformedSealedValue, msg)) ↔
      (∀ c ∈ payload, c ≠ ':')) ∧
    ((∀ c ∈ payload, c ≠ ':') →
      decryptCore K G [(k, sealedTag ++ payload)] dk [k] src =
        ([], [], 1, "sealed value for " ++ k ++ " malformed")) := by
  have hlk : lookupEnv [(k, sealedTag ++ payload)] k = some (sealedTag ++ payload) := by
    simp [lookupEnv]
  have hsw : startsWith (sealedTag ++ payload) sealedTag = true :=
    startsWith_append _ _
  have hdrop : (sealedTag ++ payload).drop sealedTag.length = payload :=
    List.drop_left _ _
  have hproc : processKeys K G [(k, sealedTag ++ payload)] dk [k] =
      (match splitFirstColon payload with
      | none =>
        Except.error (UnsealFailure.malformedSealedValue,
          "sealed value for " ++ k ++ " malformed")
      | some (mlkemB64, gcmB64) =>
        match b64decode mlkemB64 with
        | none =>
          Except.error (UnsealFailure.invalidMlkemBase64,
            "invalid base64 mlkem ciphertext for " ++ k)
        | some mlkemCiphertext =>
          match b64decode gcmB64 with
          | none =>
            Except.error (UnsealFailure.invalidGcmBase64,
              "invalid base64 gcm blob for " ++ k)
          | some gcmBlob =>
            match K.decap dk mlkemCiphertext with
            | none =>
              Except.error (UnsealFailure.decapsulationFailed,
                "decapsulation failed for " ++ k)
            | some sharedKey =>
              if sharedKey.length ≠ 32 then
                Except.error (UnsealFailure.unexpectedSharedKeySize,
                  "unexpected shared key size for " ++ k)
              else
                match decryptAESGCM G sharedKey gcmBlob with
                | Except.error e =>
                  Except.error (UnsealFailure.decryptionFailed,
                    "decryption failed for " ++ k ++ ": " ++ e)
                | Except.ok plaintext =>
                  (processKeys K G [(k, sealedTag ++ payload)] dk []).map
                    (fun m => (k, plaintext) :: m)) := by
    conv_lhs => rw [processKeys]
    rw [hlk]
    simp only [Option.getD_some, hsw, if_true, hdrop]
  cases hsp : splitFirstColon payload with
  | none =>
    have hall : ∀ c ∈ payload, c ≠ ':' := (splitFirstColon_eq_none_iff payload).mp hsp
    constructor
    · rw [hproc, hsp]
      exact iff_of_true ⟨_, rfl⟩ hall
    · intro _
      unfold decryptCore
      have hmiss : ([k].filter
          (fun k2 => (lookupEnv [(k, sealedTag ++ payload)] k2).isNone)) = [] := by
        simp [hlk]
      simp only [List.isEmpty_cons, Bool.false_eq_true, if_false, false_and, hmiss,
        List.isEmpty_nil, if_true, hproc, hsp]
  | some p =>
    have hnotall : ¬ ∀ c ∈ payload, c ≠ ':' := by
      intro hall
      rw [(splitFirstColon_eq_none_iff payload).mpr hall] at hsp
      cases hsp
    constructor
    · rw [hproc, hsp]
      apply iff_of_false _ hnotall
      obtain ⟨a, b⟩ := p
      intro ⟨msg, hmsg⟩
      dsimp only at hmsg
      cases hm1 : b64decode a with
      | none => rw [hm1] at hmsg; cases hmsg
      | some ct =>
        rw [hm1] at hmsg
        dsimp only at hmsg
        cases hm2 : b64decode b with
        | none => rw [hm2] at hmsg; cases hmsg
        | some blob =>
          rw [hm2] at hmsg
          dsimp only at hmsg
          cases hdc : K.decap dk ct with
          | none => rw [hdc] at hmsg; cases hmsg
          | some shared =>
            rw [hdc] at hmsg
            dsimp only at hmsg
            by_cases hlen : shared.length ≠ 32
            · rw [if_pos hlen] at hmsg; cases hmsg
            · rw [if_neg hlen] at hmsg
              cases hdec : decryptAESGCM G shared blob with
              | error e => rw [hdec] at hmsg; cases hmsg
              | ok pt =>
                rw [hdec] at hmsg
                dsimp only at hmsg
                rw [show processKeys K G [(k, sealedTag ++ payload)] dk [] =
                  Except.ok [] from rfl] at hmsg
                cases hmsg
    · intro hall
      exact absurd ((splitFirstColon_eq_none_iff payload).mpr hall) (by
        rw [hsp]; intro hh; cases hh)

/-- C5 witness: the amended statement run at a separator-free payload. -/
theorem c5_parse_step_witness :
    decryptCore toyKEM toyGCM [("K", sealedTag ++ "zzz".data)] [] ["K"] "s" =
      ([], [], 1, "sealed value for K malformed") :=
  (c5_parse_step toyKEM toyGCM [] "K" "zzz".data "s").2 (by decide)

/-- Stated from the spec's words (§4.3 `is_sealed`): strip one optional
layer of surrounding single quotes, then test for the sealed tag — kept
separate so the claimed detection can be compared with the selection the
code performs. -/
def isSealedSpec (s : List Char) : Bool :=
  match s with
  | '\'' :: rest =>
    if rest ≠ [] ∧ rest.getLast? = some '\'' then
      startsWith rest.dropLast sealedTag
    else startsWith s sealedTag
  | _ => startsWith s sealedTag

/-- C6 counterexample: a stored value that is a single-quoted sealed value
satisfies the spec's quote-stripping detection, yet the select-all step of
`decryptCore` (a raw `strings.HasPrefix` test, no quote stripping) selects
nothing, and the operation returns success with empty output instead of
processing the key. -/
theorem c6_counterexample :
    isSealedSpec "'OJSTER-1:a:b'".data = true ∧
    selectSealed [("A", "'OJSTER-1:a:b'".data)] = [] ∧
    decryptCore toyKEM toyGCM [("A", "'OJSTER-1:a:b'".data)] [] [] "src" =
      ([], [], 0, "") := by
  refine ⟨by decide, by rfl, by rfl⟩

/-- C6 (amended): with an empty requested-key list, `decryptCore` selects
exactly the keys whose stored value starts with the sealed tag (raw
prefix test, without the spec's quote stripping), processes them in
lexicographically sorted order (the resolved keys are the sorted
selection), and an empty selection yields success (exit 0) with empty
output rather than an error. -/
theorem c6_select_all (K : KEM) (G : GCM) (envMap : List (String × List Char))
    (dk : List Nat) (src : String) :
    (∀ k, k ∈ selectSealed envMap ↔
      ∃ v, (k, v) ∈ envMap ∧ startsWith v sealedTag = true) ∧
    SortedLe (selectSealed envMap) ∧
    (selectSealed envMap = [] →
      decryptCore K G envMap dk [] src = ([], [], 0, "")) ∧
    ((decryptCore K G envMap dk [] src).2.2.1 = 0 →
      (decryptCore K G envMap dk [] src).2.1 = selectSealed envMap) := by
  refine ⟨fun k => ?_, sortStrings_sorted _, fun hsel => ?_, fun hcode => ?_⟩
  · unfold selectSealed
    rw [mem_sortStrings, List.mem_map]
    constructor
    · intro ⟨kv, hkv, hfst⟩
      have hmem := (List.mem_filter.mp hkv).1
      have hsw := (List.mem_filter.mp hkv).2
      exact ⟨kv.2, by rw [← hfst]; exact hmem, hsw⟩
    · intro ⟨v, hv, hsw⟩
      exact ⟨(k, v), List.mem_filter.mpr ⟨hv, hsw⟩, rfl⟩
  · unfold decryptCore
    simp only [List.isEmpty_nil, hsel, if_true, true_and]
  · by_cases hsel : selectSealed envMap = []
    · unfold decryptCore
      simp only [List.isEmpty_nil, hsel, if_true, true_and]
    · have hne : (selectSealed envMap).isEmpty = false := by
        cases hs2 : selectSealed envMap with
        | nil => exact absurd hs2 hsel
        | cons a l => rfl
      unfold decryptCore at hcode ⊢
      simp only [List.isEmpty_nil, hne, if_true, true_and, Bool.false_eq_true,
        and_false, if_false] at hcode ⊢
      by_cases hmiss : ((selectSealed envMap).filter
          (fun k => (lookupEnv envMap k).isNone)).isEmpty = true
      · rw [if_pos hmiss] at hcode ⊢
        cases hp : processKeys K G envMap dk (selectSealed envMap) with
        | error e =>
          obtain ⟨f, m⟩ := e
          rw [hp] at hcode
          exact absurd hcode Nat.one_ne_zero
        | ok m => rfl
      · rw [if_neg hmiss] at hcode
        exact absurd hcode (Nat.succ_ne_zero 1)

/-- C6 witness: the amended statement applied at an empty source map —
empty selection, success with empty output. -/
theorem c6_select_all_witness :
    decryptCore toyKEM toyGCM [] [] [] "s" = ([], [], 0, "") :=
  (c6_select_all toyKEM toyGCM [] [] "s").2.2.1 rfl

/-- Every error `processKeys` produces is a per-value failure, never a
configuration (private-key loading) failure. -/
theorem processKeys_error_not_config (K : KEM) (G : GCM)
    (envMap : List (String × List Char)) (dk : List Nat) :
    ∀ keys f msg, processKeys K G envMap dk keys = Except.error (f, msg) →
      isErrConfig f = false := by
  intro keys
  induction keys with
  | nil => intro f msg h; cases h
  | cons k rest ih =>
    intro f msg h
    rw [processKeys] at h
    by_cases hsw : startsWith ((lookupEnv envMap k).getD []) sealedTag = true
    · rw [if_pos hsw] at h
      cases hsp : splitFirstColon (((lookupEnv envMap k).getD []).drop sealedTag.length) with
      | none =>
        rw [hsp] at h
        injection h with h2
        rw [← (Prod.mk.injEq ..).mp h2 |>.1]
        rfl
      | some p =>
        obtain ⟨a, b⟩ := p
        rw [hsp] at h
        dsimp only at h
        cases hm1 : b64decode a with
        | none =>
          rw [hm1] at h
          injection h with h2
          rw [← (Prod.mk.injEq ..).mp h2 |>.1]
          rfl
        | some ct =>
          rw [hm1] at h
          dsimp only at h
          cases hm2 : b64decode b with
          | none =>
            rw [hm2] at h
            injection h with h2
            rw [← (Prod.mk.injEq ..).mp h2 |>.1]
            rfl
          | some blob =>
            rw [hm2] at h
            dsimp only at h
            cases hdc : K.decap dk ct with
            | none =>
              rw [hdc] at h
              injection h with h2
              rw [← (Prod.mk.injEq ..).mp h2 |>.1]
              rfl
            | some shared =>
              rw [hdc] at h
              dsimp only at h
              by_cases hlen : shared.length ≠ 32
              · rw [if_pos hlen] at h
                injection h with h2
                rw [← (Prod.mk.injEq ..).mp h2 |>.1]
                rfl
              · rw [if_neg hlen] at h
                cases hdec : decryptAESGCM G shared blob with
                | error e =>
                  rw [hdec] at h
                  injection h with h2
                  rw [← (Prod.mk.injEq ..).mp h2 |>.1]
                  rfl
                | ok pt =>
                  rw [hdec] at h
                  dsimp only at h
                  cases hr : processKeys K G envMap dk rest with
                  | error e2 =>
                    obtain ⟨f2, m2⟩ := e2
                    rw [hr] at h
                    injection h with h2
                    obtain ⟨hf, _⟩ := (Prod.mk.injEq ..).mp h2
                    rw [← hf]
                    exact ih f2 m2 hr
                  | ok m2 =>
                    rw [hr] at h
                    cases h
    · rw [if_neg hsw] at h
      injection h with h2
      rw [← (Prod.mk.injEq ..).mp h2 |>.1]
      rfl

/-- C8: in the handler's direct mode, every private-key loading failure
(file unreadable, invalid base64, invalid key material) is mapped to
`500 Internal Server Error`, while every per-value decryption failure is
mapped to `502 Bad Gateway`. -/
theorem c8_direct_mode_status (K : KEM) (G : GCM) :
    (∀ privContent f msg,
      loadDecapsulationKey K privContent = Except.error (f, msg) →
      directUnsealErrResponse (f, msg) = HResp.err 500 msg) ∧
    (∀ envMap dk keys f msg,
      processKeys K G envMap dk keys = Except.error (f, msg) →
      directUnsealErrResponse (f, msg) = HResp.err 502 msg) := by
  constructor
  · intro privContent f msg h
    have hconf : isErrConfig f = true := by
      cases privContent with
      | none =>
        injection h with h2
        rw [← (Prod.mk.injEq ..).mp h2 |>.1]
        rfl
      | some content =>
        rw [loadDecapsulationKey] at h
        cases hdec : b64decode (trimSpace content) with
        | none =>
          rw [hdec] at h
          injection h with h2
          rw [← (Prod.mk.injEq ..).mp h2 |>.1]
          rfl
        | some privBytes =>
          rw [hdec] at h
          dsimp only at h
          by_cases hv : K.validDK privBytes = true
          · rw [if_pos hv] at h; cases h
          · rw [if_neg hv] at h
            injection h with h2
            rw [← (Prod.mk.injEq ..).mp h2 |>.1]
            rfl
    unfold directUnsealErrResponse
    rw [if_pos hconf]
  · intro envMap dk keys f msg h
    have := processKeys_error_not_config K G envMap dk keys f msg h
    unfold directUnsealErrResponse
    rw [if_neg (by rw [this]; exact Bool.false_ne_true)]

/-- C8 witness: an unreadable private-key file is answered 500; a
not-sealed per-value failure is answered 502. -/
theorem c8_direct_mode_status_witness :
    directUnsealErrResponse
      (UnsealFailure.privKeyFileUnreadable, "failed to read private key file") =
      HResp.err 500 "failed to read private key file" ∧
    directUnsealErrResponse
      (UnsealFailure.valueNotSealed,
        "value for K does not appear to be sealed (missing prefix)") =
      HResp.err 502 "value for K does not appear to be sealed (missing prefix)" :=
  ⟨(c8_direct_mode_status toyKEM toyGCM).1 none _ _ rfl,
   (c8_direct_mode_status toyKEM toyGCM).2 [("K", "x".data)] [] ["K"] _ _ rfl⟩

/-- When `decryptCore` exits non-zero it carries no decrypted entries. -/
theorem decryptCore_nonzero_nil (K : KEM) (G : GCM)
    (envMap : List (String × List Char)) (dk : List Nat) (keys : List String)
    (src : String) (h : (decryptCore K G envMap dk keys src).2.2.1 ≠ 0) :
    (decryptCore K G envMap dk keys src).1 = [] := by
  by_cases hke : keys.isEmpty = true
  · simp only [decryptCore, hke, if_true, true_and] at h ⊢
    by_cases hsel : (selectSealed envMap).isEmpty = true
    · rw [if_pos hsel] at h
      exact absurd rfl h
    · rw [if_neg hsel] at h ⊢
      by_cases hmiss : ((selectSealed envMap).filter
          (fun k => (lookupEnv envMap k).isNone)).isEmpty = true
      · rw [if_pos hmiss] at h ⊢
        cases hp : processKeys K G envMap dk (selectSealed envMap) with
        | error e => obtain ⟨f, m⟩ := e; rfl
        | ok m =>
          rw [hp] at h
          exact absurd rfl h
      · rw [if_neg hmiss]
  · simp only [decryptCore, hke, Bool.false_eq_true, if_false, false_and] at h ⊢
    by_cases hmiss : (keys.filter (fun k => (lookupEnv envMap k).isNone)).isEmpty = true
    · rw [if_pos hmiss] at h ⊢
      cases hp : processKeys K G envMap dk keys with
      | error e => obtain ⟨f, m⟩ := e; rfl
      | ok m =>
        rw [hp] at h
        exact absurd rfl h
    · rw [if_neg hmiss]

/-- C10: batch unsealing is all-or-nothing — whenever any per-key step (or
the key selection/validation) makes the unseal operation fail, no decrypted
data is returned at all: `decryptCore` returns an empty map, `unsealCore`
writes nothing to its output, and `UnsealMap` returns `none`. -/
theorem c10_all_or_nothing (K : KEM) (G : GCM)
    (envMap : List (String × List Char)) (dk : List Nat) (keys : List String)
    (src : String) (jsonOut : Bool) (privContent : Option (List Char)) :
    ((decryptCore K G envMap dk keys src).2.2.1 ≠ 0 →
      (decryptCore K G envMap dk keys src).1 = [] ∧
      (unsealCore K G envMap dk keys jsonOut src).1 = "") ∧
    ((UnsealMap K G envMap privContent keys).2.1 ≠ 0 →
      (UnsealMap K G envMap privContent keys).1 = none) := by
  constructor
  · intro hc
    refine ⟨decryptCore_nonzero_nil K G envMap dk keys src hc, ?_⟩
    rcases hd : decryptCore K G envMap dk keys src with ⟨d, r, c, m⟩
    have hc2 : c ≠ 0 := by
      rw [hd] at hc
      exact hc
    unfold unsealCore
    rw [hd]
    dsimp only
    rw [if_pos hc2]
  · intro hm
    unfold UnsealMap at hm ⊢
    cases hl : loadDecapsulationKey K privContent with
    | error e => obtain ⟨f, m⟩ := e; rfl
    | ok dk2 =>
      rw [hl] at hm
      dsimp only at hm ⊢
      rcases hd2 : decryptCore K G envMap dk2 keys "<map input>" with ⟨d2, r2, c2, m2⟩
      rw [hd2] at hm
      cases c2 with
      | zero =>
        dsimp only at hm
        exact absurd rfl hm
      | succ n => rfl

/-- Sample sealed value for the concrete toy pipeline (`seed = [5]`,
encapsulation randomness `[7]`, all-zero nonce, plaintext `"hi"`). -/
def sampleSealed : List Char :=
  sealedTag ++ b64encode [5, 7] ++ [':'] ++
    b64encode (List.replicate 12 0 ++ [104, 105] ++ List.replicate 16 0)

/-- C10 witness: a batch whose first key decrypts and whose second key is
malformed produces no decrypted data anywhere. -/
theorem c10_all_or_nothing_witness :
    (decryptCore toyKEM toyGCM
        [("A", sampleSealed), ("B", "OJSTER-1:noseparator".data)] [5]
        ["A", "B"] "s").1 = [] ∧
    (unsealCore toyKEM toyGCM
        [("A", sampleSealed), ("B", "OJSTER-1:noseparator".data)] [5]
        ["A", "B"] false "s").1 = "" ∧
    (UnsealMap toyKEM toyGCM
        [("A", sampleSealed), ("B", "OJSTER-1:noseparator".data)]
        (some (privKeyFileContent [5])) ["A", "B"]).1 = none := by
  have h := c10_all_or_nothing toyKEM toyGCM
    [("A", sampleSealed), ("B", "OJSTER-1:noseparator".data)] [5]
    ["A", "B"] "s" false (some (privKeyFileContent [5]))
  have h1 := h.1 (by decide)
  exact ⟨h1.1, h1.2, h.2 (by decide)⟩

/-- C1: for every plaintext and every keypair produced by the keypair
operation (private seed, public key file), sealing under the public key
with `SealWithPlaintext` and unsealing the stored sealed value under the
private seed via the unseal pipeline (`loadDecapsulationKey` +
`decryptCore`, as composed by `UnsealMap`) recovers exactly the
plaintext. -/
theorem c1_seal_unseal_roundtrip (K : KEM) (G : GCM)
    (hK : K.Lawful) (hG : G.Lawful)
    (seed encapRand nonce plaintext : List Nat) (keyName : String)
    (hseed : ∀ b ∈ seed, b < 256) (hrand : ∀ b ∈ encapRand, b < 256)
    (hpt : ∀ b ∈ plaintext, b < 256) (hn : nonce.length = 12)
    (hnb : ∀ b ∈ nonce, b < 256) :
    ∃ sealedVal,
      SealWithPlaintext K G (some (pubKeyFileContent K seed)) plaintext
        encapRand nonce = Except.ok sealedVal ∧
      UnsealMap K G [(keyName, sealedVal)] (some (privKeyFileContent seed))
        [keyName] = (some [(keyName, plaintext)], 0, "") := by
  have hekb : ∀ b ∈ K.ekOf seed, b < 256 := hK.ek_bytes seed hseed
  have hdp : b64decode (trimSpace (pubKeyFileContent K seed)) =
      some (K.ekOf seed) := by
    unfold pubKeyFileContent
    rw [trimSpace_encode_newline _ (b64encode_not_space _ hekb)]
    exact b64decode_b64encode _ hekb
  have hsl : (K.encap (K.ekOf seed) encapRand).1.length = 32 :=
    hK.shared_len _ _
  have hkeylen : ¬ (K.encap (K.ekOf seed) encapRand).1.length ≠ 32 := by
    rw [hsl]
    exact fun hh => hh rfl
  have hE : encryptAESGCM G (K.encap (K.ekOf seed) encapRand).1 nonce plaintext =
      Except.ok (nonce ++ G.aseal (K.encap (K.ekOf seed) encapRand).1 nonce plaintext) := by
    unfold encryptAESGCM
    rw [if_neg hkeylen]
  have hseal : SealWithPlaintext K G (some (pubKeyFileContent K seed)) plaintext
      encapRand nonce = Except.ok
        (sealedTag ++ b64encode (K.encap (K.ekOf seed) encapRand).2 ++ [':'] ++
          b64encode (nonce ++ G.aseal (K.encap (K.ekOf seed) encapRand).1 nonce plaintext)) := by
    unfold SealWithPlaintext
    dsimp only
    rw [hdp]
    dsimp only
    rw [if_pos (hK.validEK_ekOf seed)]
    rw [if_neg hkeylen, hE]
  refine ⟨_, hseal, ?_⟩
  -- Unseal side
  have hload : loadDecapsulationKey K (some (privKeyFileContent seed)) =
      Except.ok seed := by
    unfold loadDecapsulationKey privKeyFileContent
    dsimp only
    rw [trimSpace_encode_newline _ (b64encode_not_space _ hseed),
      b64decode_b64encode _ hseed]
    dsimp only
    rw [if_pos (hK.validDK_seed seed)]
  have hctb : ∀ b ∈ (K.encap (K.ekOf seed) encapRand).2, b < 256 :=
    hK.ct_bytes _ _ hekb hrand
  have hblobb : ∀ b ∈ nonce ++ G.aseal (K.encap (K.ekOf seed) encapRand).1 nonce plaintext,
      b < 256 := by
    intro b hb
    rcases List.mem_append.mp hb with h | h
    · exact hnb b h
    · exact hG.seal_bytes _ nonce plaintext hpt b h
  have hassoc : sealedTag ++ b64encode (K.encap (K.ekOf seed) encapRand).2 ++ [':'] ++
      b64encode (nonce ++ G.aseal (K.encap (K.ekOf seed) encapRand).1 nonce plaintext) =
      sealedTag ++ (b64encode (K.encap (K.ekOf seed) encapRand).2 ++
        (':' :: b64encode (nonce ++ G.aseal (K.encap (K.ekOf seed) encapRand).1 nonce plaintext))) := by
    simp [List.append_assoc]
  have hdecgcm : decryptAESGCM G (K.encap (K.ekOf seed) encapRand).1
      (nonce ++ G.aseal (K.encap (K.ekOf seed) encapRand).1 nonce plaintext) =
      Except.ok plaintext := by
    unfold decryptAESGCM
    rw [if_neg hkeylen]
    have hlen2 : ¬ (nonce ++ G.aseal (K.encap (K.ekOf seed) encapRand).1 nonce plaintext).length
        < nonceSizeGCM := by
      rw [List.length_append, hn]
      unfold nonceSizeGCM
      omega
    rw [if_neg hlen2]
    have ht : (nonce ++ G.aseal (K.encap (K.ekOf seed) encapRand).1 nonce plaintext).take
        nonceSizeGCM = nonce := List.take_left' hn
    have hd : (nonce ++ G.aseal (K.encap (K.ekOf seed) encapRand).1 nonce plaintext).drop
        nonceSizeGCM = G.aseal (K.encap (K.ekOf seed) encapRand).1 nonce plaintext :=
      List.drop_left' hn
    rw [ht, hd, hG.open_seal]
  have hpk : processKeys K G
      [(keyName, sealedTag ++ b64encode (K.encap (K.ekOf seed) encapRand).2 ++ [':'] ++
        b64encode (nonce ++ G.aseal (K.encap (K.ekOf seed) encapRand).1 nonce plaintext))]
      seed [keyName] = Except.ok [(keyName, plaintext)] := by
    rw [processKeys]
    rw [show lookupEnv
        [(keyName, sealedTag ++ b64encode (K.encap (K.ekOf seed) encapRand).2 ++ [':'] ++
          b64encode (nonce ++ G.aseal (K.encap (K.ekOf seed) encapRand).1 nonce plaintext))]
        keyName = some (sealedTag ++ b64encode (K.encap (K.ekOf seed) encapRand).2 ++ [':'] ++
          b64encode (nonce ++ G.aseal (K.encap (K.ekOf seed) encapRand).1 nonce plaintext))
      from by simp [lookupEnv]]
    dsimp only [Option.getD_some]
    rw [hassoc]
    rw [if_pos (startsWith_append _ _), List.drop_left,
      splitFirstColon_append _ _ (b64encode_no_colon _ hctb)]
    dsimp only
    rw [b64decode_b64encode _ hctb]
    dsimp only
    rw [b64decode_b64encode _ hblobb]
    dsimp only
    rw [hK.decap_encap seed encapRand hseed]
    dsimp only
    rw [if_neg hkeylen, hdecgcm]
    dsimp only
    rw [show processKeys K G
        [(keyName, sealedTag ++ (b64encode (K.encap (K.ekOf seed) encapRand).2 ++
          (':' :: b64encode (nonce ++ G.aseal (K.encap (K.ekOf seed) encapRand).1 nonce plaintext))))]
        seed [] = Except.ok [] from rfl]
    rfl
  have hdc : decryptCore K G
      [(keyName, sealedTag ++ b64encode (K.encap (K.ekOf seed) encapRand).2 ++ [':'] ++
        b64encode (nonce ++ G.aseal (K.encap (K.ekOf seed) encapRand).1 nonce plaintext))]
      seed [keyName] "<map input>" = ([(keyName, plaintext)], [keyName], 0, "") := by
    unfold decryptCore
    have hmiss : ([keyName].filter (fun k => (lookupEnv
        [(keyName, sealedTag ++ b64encode (K.encap (K.ekOf seed) encapRand).2 ++ [':'] ++
          b64encode (nonce ++ G.aseal (K.encap (K.ekOf seed) encapRand).1 nonce plaintext))]
        k).isNone)) = [] := by
      simp [lookupEnv]
    simp only [List.isEmpty_cons, Bool.false_eq_true, if_false, false_and, hmiss,
      List.isEmpty_nil, if_true, hpk]
  unfold UnsealMap
  rw [hload]
  dsimp only
  rw [hdc]

/-- C1 witness: the round trip run on the concrete toy pipeline. -/
theorem c1_seal_unseal_roundtrip_witness :
    ∃ sealedVal,
      SealWithPlaintext toyKEM toyGCM (some (pubKeyFileContent toyKEM [5]))
        [104, 105] [7] (List.replicate 12 0) = Except.ok sealedVal ∧
      UnsealMap toyKEM toyGCM [("SECRET", sealedVal)]
        (some (privKeyFileContent [5])) ["SECRET"] =
        (some [("SECRET", [104, 105])], 0, "") :=
  c1_seal_unseal_roundtrip toyKEM toyGCM toyKEM_lawful toyGCM_lawful
    [5] [7] (List.replicate 12 0) [104, 105] "SECRET"
    (by decide) (by decide) (by decide) (by decide) (by decide)
